import Mathlib

/-!
Verification of the expression-quality review pipeline (`main.py`).

The Python source is shallowly embedded: the JSON handling of `json.loads` /
`json.dumps` is modelled by an executable parser/printer over a `JValue` type,
Python exceptions become `Except` values (an `Except.error` models an uncaught
exception escaping the function), and the external model service is passed in
as an explicit function argument.
-/

/-- A decoded JSON value, as produced by `json.loads`.  Numbers keep their
source lexeme: no claim depends on numeric semantics, and Python float
formatting is outside the model. -/
inductive JValue where
  | jnull
  | jbool (b : Bool)
  | jnum (raw : String)
  | jstr (s : String)
  | jarr (elems : List JValue)
  | jobj (fields : List (String × JValue))

/-- JSON whitespace accepted between tokens by `json.loads`. -/
def jsonWs (c : Char) : Bool :=
  c == ' ' || c == '\t' || c == '\n' || c == '\r'

/-- Skip JSON whitespace. -/
def skipWs (cs : List Char) : List Char :=
  cs.dropWhile jsonWs

/-- Value of one hexadecimal digit. -/
def hexVal (c : Char) : Option Nat :=
  if '0' ≤ c ∧ c ≤ '9' then some (c.toNat - '0'.toNat)
  else if 'a' ≤ c ∧ c ≤ 'f' then some (c.toNat - 'a'.toNat + 10)
  else if 'A' ≤ c ∧ c ≤ 'F' then some (c.toNat - 'A'.toNat + 10)
  else none

/-- Body of a JSON string literal, after the opening quote.  Returns the
decoded characters and the remaining input.  Unescaped control characters are
rejected (strict mode of `json.loads`); `\uXXXX` escapes are decoded, with
surrogate pairs combined (a lone surrogate is not a Unicode scalar value and
cannot inhabit a Lean `Char`, so it is rejected here). -/
def parseStringBody : List Char → Option (List Char × List Char)
  | [] => none
  | '"' :: rest => some ([], rest)
  | '\\' :: rest =>
    match rest with
    | '"' :: r => (parseStringBody r).map (fun p => ( '"' :: p.1, p.2))
    | '\\' :: r => (parseStringBody r).map (fun p => ( '\\' :: p.1, p.2))
    | '/' :: r => (parseStringBody r).map (fun p => ( '/' :: p.1, p.2))
    | 'b' :: r => (parseStringBody r).map (fun p => ( '\x08' :: p.1, p.2))
    | 'f' :: r => (parseStringBody r).map (fun p => ( '\x0c' :: p.1, p.2))
    | 'n' :: r => (parseStringBody r).map (fun p => ( '\n' :: p.1, p.2))
    | 'r' :: r => (parseStringBody r).map (fun p => ( '\r' :: p.1, p.2))
    | 't' :: r => (parseStringBody r).map (fun p => ( '\t' :: p.1, p.2))
    | 'u' :: h1 :: h2 :: h3 :: h4 :: r =>
      match hexVal h1, hexVal h2, hexVal h3, hexVal h4 with
      | some a, some b, some c, some d =>
        let n := ((a * 16 + b) * 16 + c) * 16 + d
        if n < 0xD800 ∨ 0xE000 ≤ n then
          (parseStringBody r).map (fun p => (Char.ofNat n :: p.1, p.2))
        else if n < 0xDC00 then
          match r with
          | '\\' :: 'u' :: g1 :: g2 :: g3 :: g4 :: r2 =>
            match hexVal g1, hexVal g2, hexVal g3, hexVal g4 with
            | some a2, some b2, some c2, some d2 =>
              let m := ((a2 * 16 + b2) * 16 + c2) * 16 + d2
              if 0xDC00 ≤ m ∧ m < 0xE000 then
                (parseStringBody r2).map (fun p =>
                  (Char.ofNat (0x10000 + (n - 0xD800) * 0x400 + (m - 0xDC00)) :: p.1, p.2))
              else none
            | _, _, _, _ => none
          | _ => none
        else none
      | _, _, _, _ => none
    | _ => none
  | c :: rest =>
    if c.toNat < 0x20 then none
    else (parseStringBody rest).map (fun p => (c :: p.1, p.2))

/-- Longest digit run at the head of the input, and the rest. -/
def digitSpan (cs : List Char) : List Char × List Char :=
  (cs.takeWhile Char.isDigit, cs.dropWhile Char.isDigit)

/-- Integer part of a JSON number: `0`, or a nonzero digit followed by digits. -/
def parseIntPart : List Char → Option (List Char × List Char)
  | '0' :: r => some ([ '0'], r)
  | c :: r =>
    if c.isDigit then some (digitSpan (c :: r)) else none
  | [] => none

/-- Optional fraction part of a JSON number. -/
def parseFrac : List Char → Option (List Char × List Char)
  | '.' :: r =>
    let p := digitSpan r
    if p.1.isEmpty then none else some ( '.' :: p.1, p.2)
  | cs => some ([], cs)

/-- Optional exponent part of a JSON number. -/
def parseExp : List Char → Option (List Char × List Char)
  | c :: r =>
    if c = 'e' ∨ c = 'E' then
      match r with
      | s :: r2 =>
        if s = '+' ∨ s = '-' then
          let p := digitSpan r2
          if p.1.isEmpty then none else some (c :: s :: p.1, p.2)
        else
          let p := digitSpan r
          if p.1.isEmpty then none else some (c :: p.1, p.2)
      | [] => none
    else some ([], c :: r)
  | [] => some ([], [])

/-- Unsigned JSON number lexeme. -/
def parseNumberBody (cs : List Char) : Option (List Char × List Char) :=
  match parseIntPart cs with
  | none => none
  | some (ip, r1) =>
    match parseFrac r1 with
    | none => none
    | some (fp, r2) =>
      match parseExp r2 with
      | none => none
      | some (ep, r3) => some (ip ++ fp ++ ep, r3)

/-- JSON number lexeme with optional leading minus sign. -/
def parseNumber (cs : List Char) : Option (String × List Char) :=
  match cs with
  | '-' :: r => (parseNumberBody r).map (fun p => (String.mk ( '-' :: p.1), p.2))
  | _ => (parseNumberBody cs).map (fun p => (String.mk p.1, p.2))

/-- Insertion into a decoded JSON object, with Python `dict` semantics: a
repeated key keeps its original position and takes the latest value. -/
def pyDictInsert (kvs : List (String × JValue)) (k : String) (v : JValue) :
    List (String × JValue) :=
  if kvs.any (fun kv => kv.1 == k) then
    kvs.map (fun kv => if kv.1 == k then (k, v) else kv)
  else kvs ++ [(k, v)]

mutual

/-- One JSON value (whitespace already skipped).  Fuel bounds the recursion;
`pyJsonLoads` supplies enough fuel for any input. -/
def parseValue : Nat → List Char → Option (JValue × List Char)
  | 0, _ => none
  | fuel + 1, cs =>
    match cs with
    | 'n' :: 'u' :: 'l' :: 'l' :: rest => some (.jnull, rest)
    | 't' :: 'r' :: 'u' :: 'e' :: rest => some (.jbool true, rest)
    | 'f' :: 'a' :: 'l' :: 's' :: 'e' :: rest => some (.jbool false, rest)
    | 'N' :: 'a' :: 'N' :: rest => some (.jnum "NaN", rest)
    | 'I' :: 'n' :: 'f' :: 'i' :: 'n' :: 'i' :: 't' :: 'y' :: rest =>
      some (.jnum "Infinity", rest)
    | '-' :: 'I' :: 'n' :: 'f' :: 'i' :: 'n' :: 'i' :: 't' :: 'y' :: rest =>
      some (.jnum "-Infinity", rest)
    | '"' :: rest =>
      match parseStringBody rest with
      | some (chars, rest2) => some (.jstr (String.mk chars), rest2)
      | none => none
    | '\x7b' :: rest => parseObject fuel (skipWs rest)
    | '[' :: rest => parseArray fuel (skipWs rest)
    | _ =>
      match parseNumber cs with
      | some (raw, rest) => some (.jnum raw, rest)
      | none => none

/-- Object interior, right after the opening brace and whitespace. -/
def parseObject : Nat → List Char → Option (JValue × List Char)
  | 0, _ => none
  | fuel + 1, cs =>
    match cs with
    | '\x7d' :: rest => some (.jobj [], rest)
    | _ => parseMembers fuel cs []

/-- Object members, expecting a string key at the head of the input. -/
def parseMembers : Nat → List Char → List (String × JValue) →
    Option (JValue × List Char)
  | 0, _, _ => none
  | fuel + 1, cs, acc =>
    match cs with
    | '"' :: rest =>
      match parseStringBody rest with
      | none => none
      | some (kchars, r1) =>
        match skipWs r1 with
        | ':' :: r2 =>
          match parseValue fuel (skipWs r2) with
          | none => none
          | some (v, r3) =>
            let acc2 := pyDictInsert acc (String.mk kchars) v
            match skipWs r3 with
            | ',' :: r4 => parseMembers fuel (skipWs r4) acc2
            | '\x7d' :: r4 => some (.jobj acc2, r4)
            | _ => none
        | _ => none
    | _ => none

/-- Array interior, right after the opening bracket and whitespace. -/
def parseArray : Nat → List Char → Option (JValue × List Char)
  | 0, _ => none
  | fuel + 1, cs =>
    match cs with
    | ']' :: rest => some (.jarr [], rest)
    | _ => parseElems fuel cs []

/-- Array elements, expecting a value at the head of the input. -/
def parseElems : Nat → List Char → List JValue → Option (JValue × List Char)
  | 0, _, _ => none
  | fuel + 1, cs, acc =>
    match parseValue fuel cs with
    | none => none
    | some (v, r1) =>
      match skipWs r1 with
      | ',' :: r2 => parseElems fuel (skipWs r2) (acc ++ [v])
      | ']' :: r2 => some (.jarr (acc ++ [v]), r2)
      | _ => none

end

/-- `json.loads`: decode a whole string, or fail (`JSONDecodeError`). -/
def pyJsonLoads (s : String) : Option JValue :=
  let cs := skipWs s.data
  match parseValue (4 * cs.length + 8) cs with
  | some (v, rest) => if (skipWs rest).isEmpty then some v else none
  | none => none

/-- Python type name of a decoded JSON value (as used in exception messages).
A number lexeme with a fraction, exponent or non-finite constant is a Python
`float`, otherwise an `int`. -/
def pyTypeName : JValue → String
  | .jnull => "NoneType"
  | .jbool _ => "bool"
  | .jnum raw =>
    if raw.data.any (fun c => c == '.' || c == 'e' || c == 'E' || c == 'N' || c == 'I')
    then "float" else "int"
  | .jstr _ => "str"
  | .jarr _ => "list"
  | .jobj _ => "dict"

/-- Key membership in a decoded JSON object (Python `key in dict`). -/
def pyHasKey (kvs : List (String × JValue)) (k : String) : Bool :=
  kvs.any (fun kv => kv.1 == k)

/-- Lookup in a decoded JSON object (Python `dict[key]` / `dict.get`); the
parser already collapses duplicate keys, so the first match is the value. -/
def pyGet (kvs : List (String × JValue)) (k : String) : Option JValue :=
  (kvs.find? (fun kv => kv.1 == k)).map (fun kv => kv.2)

/-- Python truthiness of a decoded JSON value.  A number is falsy exactly when
its mantissa has no nonzero digit (`0`, `-0.0`, `0e5`, ...); `NaN` and the
infinities are truthy. -/
def pyTruthy : JValue → Bool
  | .jnull => false
  | .jbool b => b
  | .jnum raw =>
    raw.data.any (fun c => c == 'N' || c == 'I') ||
      (raw.data.takeWhile (fun c => !(c == 'e' || c == 'E'))).any
        (fun c => c.isDigit && c != '0')
  | .jstr s => !s.isEmpty
  | .jarr xs => !xs.isEmpty
  | .jobj kvs => !kvs.isEmpty

/-- Substring test: does `needle` occur contiguously inside `hay`?  Models
Python `needle in str`. -/
def containsSub (needle : List Char) : List Char → Bool
  | [] => needle.isEmpty
  | c :: t => needle.isPrefixOf (c :: t) || containsSub needle t

/-- One-level `repr` used by `pyStr` for container elements. -/
def pyReprShallow : JValue → String
  | .jnull => "None"
  | .jbool true => "True"
  | .jbool false => "False"
  | .jnum raw => raw
  | .jstr s => "\x27" ++ s ++ "\x27"
  | .jarr _ => "[...]"
  | .jobj _ => "\x7b...\x7d"

/-- Python `str()` of a decoded JSON value, as interpolated into an f-string.
Container rendering approximates `repr` (string escaping inside `repr` and
float re-formatting are outside the model; no claim exercises them). -/
def pyStr : JValue → String
  | .jnull => "None"
  | .jbool true => "True"
  | .jbool false => "False"
  | .jnum raw => raw
  | .jstr s => s
  | .jarr xs => "[" ++ String.intercalate ", " (xs.map pyReprShallow) ++ "]"
  | .jobj kvs =>
    "\x7b" ++
      String.intercalate ", "
        (kvs.map (fun kv => pyReprShallow (.jstr kv.1) ++ ": " ++ pyReprShallow kv.2)) ++
      "\x7d"

/-- Python `"\n".join`. -/
def joinWithNl : List String → String
  | [] => ""
  | [x] => x
  | x :: y :: xs => x ++ "\n" ++ joinWithNl (y :: xs)

/-- The accumulator lists of `parse_llm_response_to_markdown_table`.  A
parse-error entry is the pair `(response, error)`; the error slot holds the
decoded value of the `error` key or, for a caught exception, its message as a
string (CPython quotes type names inside such messages; the quotes are elided
in this model). -/
structure AggState where
  issue_rows : List String
  all_evaluations : List JValue
  parsing_errors : List (String × JValue)

/-- The fixed markdown table header. -/
def header : String :=
  "| 元の記述 | 改善点の詳細 | 改善案 |\n|-----------|-----------|---------|"

/-- The sentinel issues table used when no issue row was recorded. -/
def no_issues_message : String := "指摘事項は見つかりませんでした。"

/-- One markdown issue row:
`f"| {item.get(...)} | {item.get(...)} | {item.get(...)} |"`. -/
def rowOf (item : List (String × JValue)) : String :=
  "| " ++ pyStr ((pyGet item "original_sentence").getD (.jstr "")) ++ " | " ++
    pyStr ((pyGet item "reason").getD (.jstr "")) ++ " | " ++
    pyStr ((pyGet item "suggestion").getD (.jstr "")) ++ " |"

/-- The `for item in evaluations` loop.  A non-dict item raises
`AttributeError` at `item.get`, which the enclosing handler catches: the rows
recorded so far survive, a parse-error entry is appended, and the remaining
items of this response are skipped. -/
def processItems (res_str : String) : AggState → List JValue → AggState
  | st, [] => st
  | st, .jobj item :: rest =>
    if pyTruthy ((pyGet item "has_issue").getD .jnull) then
      processItems res_str
        { st with issue_rows := st.issue_rows ++ [rowOf item] } rest
    else processItems res_str st rest
  | st, item :: _ =>
    { st with parsing_errors := st.parsing_errors ++
        [(res_str, .jstr ("AttributeError: " ++ pyTypeName item ++
          " object has no attribute get"))] }

/-- `all_evaluations.extend(evaluations)` followed by the item loop.
`extend` of a string or dict appends its characters resp. keys and the loop
then raises a caught `AttributeError`; `extend` of a number, bool or `None`
raises an uncaught `TypeError` (modelled as `Except.error`). -/
def processEvaluations (res_str : String) (st : AggState) :
    JValue → Except String AggState
  | .jarr xs =>
    .ok (processItems res_str
      { st with all_evaluations := st.all_evaluations ++ xs } xs)
  | .jstr s =>
    let st2 := { st with all_evaluations :=
      st.all_evaluations ++ s.data.map (fun c => JValue.jstr (String.mk [c])) }
    if s.isEmpty then .ok st2
    else .ok { st2 with parsing_errors := st2.parsing_errors ++
      [(res_str, .jstr "AttributeError: str object has no attribute get")] }
  | .jobj kvs =>
    let st2 := { st with all_evaluations :=
      st.all_evaluations ++ kvs.map (fun kv => JValue.jstr kv.1) }
    if kvs.isEmpty then .ok st2
    else .ok { st2 with parsing_errors := st2.parsing_errors ++
      [(res_str, .jstr "AttributeError: str object has no attribute get")] }
  | v => .error ("TypeError: " ++ pyTypeName v ++ " object is not iterable")

/-- Processing of one raw response inside the `try` of the aggregator.
`json.loads` failure and `AttributeError` are caught and recorded;
`"error" in data` on a number/bool/`None` and `data["error"]` on a list or
string raise uncaught `TypeError`s that abort the whole aggregation. -/
def processResponse (st : AggState) (res_str : String) :
    Except String AggState :=
  match pyJsonLoads res_str with
  | none =>
    .ok { st with parsing_errors := st.parsing_errors ++
      [(res_str, .jstr "JSONDecodeError")] }
  | some data =>
    match data with
    | .jobj kvs =>
      if pyHasKey kvs "error" then
        .ok { st with parsing_errors := st.parsing_errors ++
          [(res_str, (pyGet kvs "error").getD .jnull)] }
      else
        processEvaluations res_str st ((pyGet kvs "evaluations").getD (.jarr []))
    | .jarr xs =>
      if xs.any (fun v => match v with | .jstr s => s == "error" | _ => false) then
        .error "TypeError: list indices must be integers or slices, not str"
      else
        .ok { st with parsing_errors := st.parsing_errors ++
          [(res_str, .jstr "AttributeError: list object has no attribute get")] }
    | .jstr s =>
      if containsSub "error".data s.data then
        .error "TypeError: string indices must be integers"
      else
        .ok { st with parsing_errors := st.parsing_errors ++
          [(res_str, .jstr "AttributeError: str object has no attribute get")] }
    | v => .error ("TypeError: argument of type " ++ pyTypeName v ++
        " is not iterable")

/-- The `for res_str in responses` loop; an uncaught exception aborts it. -/
def aggLoop : AggState → List String → Except String AggState
  | st, [] => .ok st
  | st, r :: rs =>
    match processResponse st r with
    | .ok st2 => aggLoop st2 rs
    | .error e => .error e

/-- `parse_llm_response_to_markdown_table`: returns the issues table, the
full evaluation list and the parse-error list, or an uncaught exception. -/
def parse_llm_response_to_markdown_table (responses : List String) :
    Except String (String × List JValue × List (String × JValue)) :=
  match aggLoop ⟨[], [], []⟩ responses with
  | .error e => .error e
  | .ok st =>
    .ok (if st.issue_rows.isEmpty then no_issues_message
         else header ++ "\n" ++ joinWithNl st.issue_rows,
         st.all_evaluations, st.parsing_errors)

/-- The fixed rule catalog `rule_mapping`: key to natural-language rule
description; `none` models a key whose lookup would raise `KeyError`. -/
def rule_mapping (key : String) : Option String :=
  if key = "conciseness" then
    some "簡潔な文: 受動態、二重否定、部分否定、使役表現が使われていないか。"
  else if key = "missing_elements" then
    some "必要な語の欠落: 主語、述語、目的語が明確で、欠落していないか。"
  else if key = "ambiguity" then
    some "曖昧語の回避: 「適切に」「可能な限り」などの曖昧な表現が使われていないか。"
  else if key = "typos" then
    some "誤字脱字: 誤字や脱字がないか。"
  else if key = "dependency" then
    some "係り受け: 係り受けが一意に解釈できるか。"
  else none

/-- The five rule keys of the catalog, in declaration order. -/
def catalogKeys : List String :=
  ["conciseness", "missing_elements", "ambiguity", "typos", "dependency"]

/-- The checklist lines `[f"- \x7brule_mapping[key]\x7d" for key in
selected_rules]`; a key outside the catalog raises `KeyError` at the first
offending lookup (modelled as `Except.error`). -/
def active_rules_lines : List String → Except String (List String)
  | [] => .ok []
  | k :: ks =>
    match rule_mapping k with
    | none => .error ("KeyError: " ++ k)
    | some d => (active_rules_lines ks).map (fun rest => ("- " ++ d) :: rest)

/-- `active_rules_text = "\n".join(...)`. -/
def active_rules_text (selected_rules : List String) : Except String String :=
  (active_rules_lines selected_rules).map joinWithNl

/-- The fixed system prompt. -/
def system_prompt : String :=
  "あなたは、提供された文章を分析し、特定の品質基準に基づいて改善点を提案するAIアシスタントです。あなたの応答は、必ず指定されたJSON形式でなければなりません。他のテキストは一切含めないでください。"

/-- The user prompt text before the rule checklist. -/
def user_prompt_head : String :=
  "\n以下の「品質基準」に従って、「評価対象の文章」の各文を評価してください。\n結果をJSON形式で返してください。\n\n# 品質基準\n"

/-- The user prompt text between the rule checklist and the evaluated text:
the worked example pair in the target schema. -/
def user_prompt_middle : String :=
  "\n\n# 出力形式の例\n\x7b\n  \"evaluations\": [\n    \x7b\n      \"original_sentence\": \"ユーザーによりデータが送信される。\",\n      \"has_issue\": true,\n      \"reason\": \"簡潔な文：受動態が使用されています。\",\n      \"suggestion\": \"ユーザーがデータを送信する。\"\n    \x7d,\n    \x7b\n      \"original_sentence\": \"この文には問題ありません。\",\n      \"has_issue\": false,\n      \"reason\": \"\",\n      \"suggestion\": \"\"\n    \x7d\n  ]\n\x7d\n\n# 評価対象の文章\n"

/-- The f-string `user_prompt`, given the already-joined checklist text. -/
def user_prompt (text_content : String) (rules_text : String) : String :=
  user_prompt_head ++ rules_text ++ user_prompt_middle ++ text_content ++ "\n"

/-- One hexadecimal digit character (lowercase). -/
def hexDigitChar (n : Nat) : Char :=
  if n < 10 then Char.ofNat ( '0'.toNat + n) else Char.ofNat ( 'a'.toNat + n - 10)

/-- Four lowercase hex digits. -/
def hex4 (n : Nat) : String :=
  String.mk [hexDigitChar (n / 4096 % 16), hexDigitChar (n / 256 % 16),
    hexDigitChar (n / 16 % 16), hexDigitChar (n % 16)]

/-- `json.dumps` escaping of one character (`ensure_ascii` default: anything
outside `0x20`..`0x7e` is `\uXXXX`-escaped, astral characters as a surrogate
pair). -/
def jsonDumpChar (c : Char) : String :=
  if c = '"' then "\\\""
  else if c = '\\' then "\\\\"
  else if c = '\n' then "\\n"
  else if c = '\r' then "\\r"
  else if c = '\t' then "\\t"
  else if c = '\x08' then "\\b"
  else if c = '\x0c' then "\\f"
  else if c.toNat < 0x20 then "\\u" ++ hex4 c.toNat
  else if c.toNat ≤ 0x7e then String.mk [c]
  else if c.toNat < 0x10000 then "\\u" ++ hex4 c.toNat
  else
    "\\u" ++ hex4 (0xD800 + (c.toNat - 0x10000) / 0x400) ++
      "\\u" ++ hex4 (0xDC00 + (c.toNat - 0x10000) % 0x400)

/-- `json.dumps` of a Python string. -/
def pyJsonDumps (s : String) : String :=
  "\"" ++ String.join (s.data.map jsonDumpChar) ++ "\""

/-- Index of the first occurrence of a character. -/
def firstIdxOf (c : Char) : List Char → Option Nat
  | [] => none
  | x :: xs => if x = c then some 0 else (firstIdxOf c xs).map (fun n => n + 1)

/-- Index of the last occurrence of a character. -/
def lastIdxOf (c : Char) (cs : List Char) : Option Nat :=
  (firstIdxOf c cs.reverse).map (fun k => cs.length - 1 - k)

/-- `re.search` of the DOTALL greedy pattern matching a brace-delimited span:
it matches from the first opening brace to the last closing brace of the
whole text, provided the latter comes strictly later. -/
def extractJsonSpan (content : String) : Option String :=
  let cs := content.data
  match firstIdxOf '\x7b' cs, lastIdxOf '\x7d' cs with
  | some i, some j =>
    if i < j then some (String.mk ((cs.drop i).take (j - i + 1))) else none
  | _, _ => none

/-- `evaluate_text_with_llm`.  The external service is an explicit argument
taking the system and user prompts; its `Except.ok` is the returned message
content and its `Except.error` a raised exception (message `str(e)`).  The
overall result is `Except.ok` with the string the function returns, or
`Except.error` for the uncaught `KeyError` raised while building the
checklist, which happens before the `try` block. -/
def evaluate_text_with_llm (text_content : String) (selected_rules : List String)
    (service : String → String → Except String String) : Except String String :=
  match active_rules_text selected_rules with
  | .error e => .error e
  | .ok art =>
    .ok (match service system_prompt (user_prompt text_content art) with
      | .ok content =>
        match extractJsonSpan content with
        | some m => m
        | none =>
          "\x7b\"error\": \"LLM response did not contain a valid JSON object.\", \"raw_response\": \"" ++
            pyJsonDumps content ++ "\"\x7d"
      | .error e => "\x7b\"error\": \"An error occurred: " ++ e ++ "\"\x7d")

/-- The user-visible outcome of one click handling in `main` that the claims
depend on: which validation error is surfaced, or that evaluation is entered
with the selected rule keys. -/
inductive MainAction where
  | idle
  | uploadError
  | rulesError
  | runEvaluation (selected_rules : List String)

/-- The five sidebar checkboxes of `main`, in declaration order. -/
def sidebarRules (c m a t d : Bool) : List (String × Bool) :=
  [("conciseness", c), ("missing_elements", m), ("ambiguity", a),
   ("typos", t), ("dependency", d)]

/-- The pre-flight validation of `main`: nothing happens unless the button is
pressed; a missing upload is reported first; then the checked rules are
collected and, if none is checked, a validation error is shown and the
handler returns before any evaluation. -/
def mainDecision (button_pressed file_uploaded : Bool) (c m a t d : Bool) :
    MainAction :=
  if button_pressed then
    if file_uploaded then
      let selected_rules :=
        ((sidebarRules c m a t d).filter (fun r => r.2)).map (fun r => r.1)
      if selected_rules.isEmpty then .rulesError
      else .runEvaluation selected_rules
    else .uploadError
  else .idle

/-- Modelled from the spec: the Segmenter and its `Chapter` record (§3, §4.1)
are part of the repository but not among the provided source files; this
definition follows the spec text.  Content is kept as the ordered list of
accumulated lines. -/
structure Chapter where
  label : String
  content : List String

/-- Modelled from the spec: the dot-separated digit groups of a heading
number, longest first group already taken; stops before a dot not followed
by a digit.  Fuel-driven; the caller passes the line length. -/
def headingNumAux : Nat → List Char → List Char → List Char × List Char
  | 0, acc, cs => (acc, cs)
  | fuel + 1, acc, cs =>
    match cs with
    | '.' :: r =>
      let p := digitSpan r
      if p.1.isEmpty then (acc, cs)
      else headingNumAux fuel (acc ++ '.' :: p.1) p.2
    | _ => (acc, cs)

/-- Modelled from the spec: the heading pattern — one or more dot-separated
digit groups at the start of the line, then whitespace, then the title
remainder; a match yields the label `"<number> <title>"` (§4.1, §8). -/
def parseHeading (line : String) : Option String :=
  let cs := line.data
  let d := digitSpan cs
  if d.1.isEmpty then none
  else
    let p := headingNumAux cs.length d.1 d.2
    match p.2 with
    | c :: _ =>
      if c.isWhitespace then
        some (String.mk p.1 ++ " " ++ String.mk (p.2.dropWhile Char.isWhitespace))
      else none
    | [] => none

/-- Modelled from the spec: append a line to the chapter with the given
label, creating the chapter at the end on first appearance; chapters are
keyed by label, so a reused label reopens the same chapter (§4.1, §9). -/
def addLine (chs : List Chapter) (lab : String) (line : String) : List Chapter :=
  if chs.any (fun c => c.label == lab) then
    chs.map (fun c => if c.label == lab then ⟨c.label, c.content ++ [line]⟩ else c)
  else chs ++ [⟨lab, [line]⟩]

/-- Modelled from the spec: the line loop of the Segmenter — each line first
updates the current label on a heading match, then is appended under the
(possibly new) current label (§4.1). -/
def segmentAux : List Chapter → String → List String → List Chapter
  | chs, _, [] => chs
  | chs, lab, line :: rest =>
    let lab2 := (parseHeading line).getD lab
    segmentAux (addLine chs lab2 line) lab2 rest

/-- Split at every newline character; the empty text has one empty line. -/
def splitNl : List Char → List (List Char)
  | [] => [[]]
  | c :: r =>
    let rest := splitNl r
    if c = '\n' then [] :: rest
    else
      match rest with
      | [] => [[c]]
      | l :: ls => (c :: l) :: ls

/-- Modelled from the spec: the newline-delimited lines of the document. -/
def docLines (text : String) : List String := (splitNl text.data).map String.mk

/-- Modelled from the spec: `segment` — the current label starts at the
sentinel, which always yields at least the "unclassified" chapter, possibly
with empty content (§4.1 failure semantics).  Named `segment` in the spec;
that name is taken by Mathlib. -/
def segmentDoc (text : String) : List Chapter :=
  segmentAux [⟨"unclassified", []⟩] "unclassified" (docLines text)

/-- Statement helper: each line paired with the label current when it was
read, starting from the given label. -/
def labelTrace (lab : String) : List String → List (String × String)
  | [] => []
  | line :: rest =>
    let lab2 := (parseHeading line).getD lab
    (line, lab2) :: labelTrace lab2 rest

/-- Statement helper: the accumulated content lines of the chapters carrying
a given label (with distinct labels, of the unique such chapter). -/
def chContent (chs : List Chapter) (L : String) : List String :=
  ((chs.filter (fun c => c.label == L)).map Chapter.content).flatten

/-- Statement helper: a raw response on which the aggregator records at most
a parse-error entry or reads a well-formed `evaluations` array — i.e. it
fails structured decode, or decodes to an object that carries an `error` key
or whose `evaluations` value is absent or an array. -/
def responseSafe (s : String) : Bool :=
  match pyJsonLoads s with
  | none => true
  | some (.jobj kvs) =>
    pyHasKey kvs "error" ||
      (match pyGet kvs "evaluations" with
       | none => true
       | some (.jarr _) => true
       | some _ => false)
  | some _ => false

/-- Statement helper: no evaluation item of this response is a dict with a
truthy `has_issue`, so no issue row can be recorded for it. -/
def responseNoIssue (s : String) : Bool :=
  match pyJsonLoads s with
  | some (.jobj kvs) =>
    (match pyGet kvs "evaluations" with
     | some (.jarr xs) =>
       xs.all (fun item =>
         match item with
         | .jobj k => !pyTruthy ((pyGet k "has_issue").getD .jnull)
         | _ => true)
     | _ => true)
  | _ => true

/-! ## Helper lemmas -/

theorem pyHasKey_of_pyGet {kvs : List (String × JValue)} {k : String}
    {v : JValue} (h : pyGet kvs k = some v) : pyHasKey kvs k = true := by
  unfold pyGet at h
  unfold pyHasKey
  cases hf : kvs.find? (fun kv => kv.1 == k) with
  | none => rw [hf] at h; simp at h
  | some kv =>
    have hp := List.find?_some hf
    have hm := List.mem_of_find?_eq_some hf
    exact List.any_eq_true.mpr ⟨kv, hm, hp⟩

theorem joinWithNl_singleton (x : String) : joinWithNl [x] = x := rfl

/-! ## Claim theorems -/

/-- Claim C1 (code bug): a raw response that decodes to an object whose
`evaluations` value is JSON `null` makes `list.extend` raise a `TypeError`
that neither `except` clause catches: the whole aggregation aborts and the
following well-formed response is never processed, against the isolation the
spec promises. -/
theorem aggregation_aborts_on_null_evaluations :
    parse_llm_response_to_markdown_table
      ["\x7b\"evaluations\": null\x7d", "\x7b\"evaluations\": []\x7d"] =
      .error "TypeError: NoneType object is not iterable" := by rfl

/-- Claim C5: aggregating one Failure-shaped response (an object carrying an
`error` key) together with one Success-shaped response whose `evaluations`
array holds one flagged and one clean item yields one parse-error entry, both
items in encounter order, and an issues table with exactly one data row; and
a decoded object with no `evaluations` key is treated as an empty array, not
an error. -/
theorem aggregate_mixed_outcomes :
    (∀ (f s : String) (kvf kvs k1 k2 : List (String × JValue))
      (errv i1 i2 : JValue),
      pyJsonLoads f = some (.jobj kvf) →
      pyGet kvf "error" = some errv →
      pyJsonLoads s = some (.jobj kvs) →
      pyHasKey kvs "error" = false →
      pyGet kvs "evaluations" = some (.jarr [i1, i2]) →
      i1 = .jobj k1 → pyGet k1 "has_issue" = some (.jbool true) →
      i2 = .jobj k2 → pyGet k2 "has_issue" = some (.jbool false) →
      parse_llm_response_to_markdown_table [f, s] =
        .ok (header ++ "\n" ++ rowOf k1, [i1, i2], [(f, errv)])) ∧
    (∀ (r : String) (kvr : List (String × JValue)),
      pyJsonLoads r = some (.jobj kvr) →
      pyHasKey kvr "error" = false →
      pyGet kvr "evaluations" = none →
      parse_llm_response_to_markdown_table [r] =
        .ok (no_issues_message, [], [])) := by
  constructor
  · intro f s kvf kvs k1 k2 errv i1 i2 hf hferr hs hserr hev hi1 hk1 hi2 hk2
    subst hi1 hi2
    simp [parse_llm_response_to_markdown_table, aggLoop, processResponse, hf, hs,
      hserr, hev, processEvaluations, processItems, hk1, hk2,
      pyHasKey_of_pyGet hferr, hferr, pyTruthy, joinWithNl]
  · intro r kvr hr hrerr hrev
    simp [parse_llm_response_to_markdown_table, aggLoop, processResponse, hr,
      hrerr, hrev, processEvaluations, processItems]

set_option maxRecDepth 16384 in
/-- Witness for C5 at concrete responses. -/
theorem aggregate_mixed_outcomes_witness :
    parse_llm_response_to_markdown_table
      ["\x7b\"error\": \"boom\"\x7d",
       "\x7b\"evaluations\": [\x7b\"original_sentence\": \"a\", \"has_issue\": true, \"reason\": \"r\", \"suggestion\": \"sg\"\x7d, \x7b\"original_sentence\": \"b\", \"has_issue\": false, \"reason\": \"\", \"suggestion\": \"\"\x7d]\x7d"] =
      .ok (header ++ "\n" ++
          rowOf [("original_sentence", .jstr "a"), ("has_issue", .jbool true),
                 ("reason", .jstr "r"), ("suggestion", .jstr "sg")],
        [.jobj [("original_sentence", .jstr "a"), ("has_issue", .jbool true),
                ("reason", .jstr "r"), ("suggestion", .jstr "sg")],
         .jobj [("original_sentence", .jstr "b"), ("has_issue", .jbool false),
                ("reason", .jstr ""), ("suggestion", .jstr "")]],
        [("\x7b\"error\": \"boom\"\x7d", .jstr "boom")]) ∧
    parse_llm_response_to_markdown_table ["\x7b\x7d"] =
      .ok (no_issues_message, [], []) :=
  ⟨aggregate_mixed_outcomes.1 _ _ _ _ _ _ _ _ _ rfl rfl rfl rfl rfl rfl rfl rfl rfl,
   aggregate_mixed_outcomes.2 _ _ rfl rfl rfl⟩

/-- If every dict item of an `evaluations` array has a falsy `has_issue`, the
item loop records no issue row (a non-dict item only records a caught
`AttributeError`). -/
theorem processItems_issue_rows (res_str : String) (xs : List JValue)
    (st : AggState)
    (h : ∀ item ∈ xs, ∀ k, item = JValue.jobj k →
      pyTruthy ((pyGet k "has_issue").getD .jnull) = false) :
    (processItems res_str st xs).issue_rows = st.issue_rows := by
  induction xs generalizing st with
  | nil => rfl
  | cons item rest ih =>
    cases item with
    | jobj k =>
      have hk := h _ (List.mem_cons_self _ _) k rfl
      simp [processItems, hk]
      exact ih st (fun i hi => h i (List.mem_cons_of_mem _ hi))
    | jnull => rfl
    | jbool b => rfl
    | jnum raw => rfl
    | jstr s => rfl
    | jarr es => rfl

/-- A safe response with no flagged item leaves `issue_rows` unchanged and
does not abort. -/
theorem processResponse_safe_noissue (st : AggState) (s : String)
    (hsafe : responseSafe s = true) (hni : responseNoIssue s = true) :
    ∃ st', processResponse st s = .ok st' ∧ st'.issue_rows = st.issue_rows := by
  unfold processResponse
  cases hj : pyJsonLoads s with
  | none => exact ⟨_, rfl, rfl⟩
  | some data =>
    simp only [responseSafe, hj] at hsafe
    simp only [responseNoIssue, hj] at hni
    cases data with
    | jobj kvs =>
      by_cases he : pyHasKey kvs "error" = true
      · simp only [he, if_true]
        exact ⟨_, rfl, rfl⟩
      · have he' : pyHasKey kvs "error" = false := by simpa using he
        simp only [he', Bool.false_or] at hsafe
        simp only [he', Bool.false_eq_true, if_false]
        cases hev : pyGet kvs "evaluations" with
        | none =>
          simp only [hev, Option.getD_none]
          exact ⟨_, by simp [processEvaluations, processItems], rfl⟩
        | some ev =>
          simp only [hev] at hsafe hni
          cases ev with
          | jarr xs =>
            have hclean : ∀ item ∈ xs, ∀ k, item = JValue.jobj k →
                pyTruthy ((pyGet k "has_issue").getD .jnull) = false := by
              intro item hi k hk
              subst hk
              have h2 := List.all_eq_true.mp (by simpa using hni) _ hi
              simpa using h2
            refine ⟨processItems s
              { st with all_evaluations := st.all_evaluations ++ xs } xs, ?_, ?_⟩
            · rfl
            · have h3 := processItems_issue_rows s xs
                { st with all_evaluations := st.all_evaluations ++ xs } hclean
              simpa using h3
          | jnull => simp at hsafe
          | jbool b => simp at hsafe
          | jnum raw => simp at hsafe
          | jstr str => simp at hsafe
          | jobj kv2 => simp at hsafe
    | jnull => simp at hsafe
    | jbool b => simp at hsafe
    | jnum raw => simp at hsafe
    | jstr str => simp at hsafe
    | jarr es => simp at hsafe

/-- The response loop on safe, issue-free responses completes with
`issue_rows` unchanged. -/
theorem aggLoop_safe_noissue (rs : List String) (st : AggState)
    (hsafe : ∀ s ∈ rs, responseSafe s = true)
    (hni : ∀ s ∈ rs, responseNoIssue s = true) :
    ∃ st', aggLoop st rs = .ok st' ∧ st'.issue_rows = st.issue_rows := by
  induction rs generalizing st with
  | nil => exact ⟨st, rfl, rfl⟩
  | cons r rest ih =>
    obtain ⟨st1, h1, hr1⟩ :=
      processResponse_safe_noissue st r (hsafe _ (by simp)) (hni _ (by simp))
    obtain ⟨st2, h2, hr2⟩ := ih st1 (fun s hs => hsafe s (by simp [hs]))
      (fun s hs => hni s (by simp [hs]))
    exact ⟨st2, by simp [aggLoop, h1, h2], hr2.trans hr1⟩

/-- Claim C6 (amended): for every input list whose elements are safe for the
aggregator (they fail decode, or decode to an object carrying an `error` key
or an absent/array `evaluations`) and in which no item with a truthy
`has_issue` is encountered, the issues table is the literal
"no issues found" sentinel; on the empty list, `all_items` and
`parse_errors` are additionally both empty. -/
theorem aggregate_no_issues_sentinel :
    (∀ rs : List String,
      (∀ s ∈ rs, responseSafe s = true) →
      (∀ s ∈ rs, responseNoIssue s = true) →
      ∃ items errs, parse_llm_response_to_markdown_table rs =
        .ok (no_issues_message, items, errs)) ∧
    parse_llm_response_to_markdown_table [] = .ok (no_issues_message, [], []) := by
  constructor
  · intro rs hsafe hni
    obtain ⟨st', h1, h2⟩ := aggLoop_safe_noissue rs ⟨[], [], []⟩ hsafe hni
    refine ⟨st'.all_evaluations, st'.parsing_errors, ?_⟩
    simp [parse_llm_response_to_markdown_table, h1, h2]
  · rfl

/-- Counterexample to C6 as stated: on a response whose decoded object has
`evaluations: true`, no item is ever encountered, yet no issues table is
returned at all — the aggregation aborts with an uncaught `TypeError`. -/
theorem aggregate_sentinel_counterexample :
    responseNoIssue "\x7b\"evaluations\": true\x7d" = true ∧
    parse_llm_response_to_markdown_table ["\x7b\"evaluations\": true\x7d"] =
      .error "TypeError: bool object is not iterable" := ⟨rfl, rfl⟩

/-- Witness for C6 at a concrete clean response. -/
theorem aggregate_no_issues_sentinel_witness :
    ∃ items errs, parse_llm_response_to_markdown_table
      ["\x7b\"evaluations\": [\x7b\"has_issue\": false\x7d]\x7d"] =
      .ok (no_issues_message, items, errs) :=
  aggregate_no_issues_sentinel.1 _ (by decide) (by decide)

/-- `firstIdxOf` over an append whose left part misses the character. -/
theorem firstIdxOf_append_of_not_mem (c : Char) (xs ys : List Char)
    (h : c ∉ xs) :
    firstIdxOf c (xs ++ ys) = (firstIdxOf c ys).map (fun n => n + xs.length) := by
  induction xs with
  | nil => simp
  | cons x t ih =>
    have hx : ¬ x = c := fun he => h (by simp [he])
    have ht : c ∉ t := fun hm => h (by simp [hm])
    have hstep : firstIdxOf c (x :: (t ++ ys)) =
        (firstIdxOf c (t ++ ys)).map (fun n => n + 1) := by
      simp [firstIdxOf, hx]
    rw [List.cons_append, hstep, ih ht]
    cases firstIdxOf c ys with
    | none => rfl
    | some n =>
      simp [Nat.add_assoc]

/-- The greedy brace-span extraction on brace-free prose followed by a text
that starts with an opening brace and ends with a closing brace returns
exactly that trailing text. -/
theorem extractJsonSpan_after_prose (p j : String)
    (hp : '\x7b' ∉ p.data)
    (hhead : j.data.head? = some '\x7b')
    (hlast : j.data.getLast? = some '\x7d') :
    extractJsonSpan (p ++ j) = some j := by
  obtain ⟨pd⟩ := p
  obtain ⟨jd⟩ := j
  simp only [String.data] at hp hhead hlast
  have hlen : 2 ≤ jd.length := by
    cases jd with
    | nil => simp at hhead
    | cons c0 tl =>
      cases tl with
      | nil =>
        simp at hhead hlast
        rw [hhead] at hlast
        exact absurd hlast (by decide)
      | cons c1 tl2 => simp only [List.length_cons]; omega
  have hfirst : firstIdxOf '\x7b' (pd ++ jd) = some pd.length := by
    cases jd with
    | nil => simp at hhead
    | cons c0 tl =>
      have hc0 : c0 = '\x7b' := by simpa using hhead
      subst hc0
      rw [firstIdxOf_append_of_not_mem _ _ _ hp]
      simp [firstIdxOf]
  have hrev : ∃ r2, jd.reverse = '\x7d' :: r2 := by
    cases hr : jd.reverse with
    | nil =>
      rw [← List.head?_reverse, hr] at hlast
      simp at hlast
    | cons cr tr =>
      rw [← List.head?_reverse, hr] at hlast
      simp at hlast
      exact ⟨tr, by rw [hlast]⟩
  obtain ⟨r2, hr2⟩ := hrev
  have hlast2 : lastIdxOf '\x7d' (pd ++ jd) = some (pd.length + jd.length - 1) := by
    unfold lastIdxOf
    rw [List.reverse_append, hr2]
    simp [firstIdxOf]
  show extractJsonSpan (String.mk pd ++ String.mk jd) = some (String.mk jd)
  unfold extractJsonSpan
  rw [String.data_append]
  simp only [String.data]
  rw [hfirst, hlast2]
  have hlt : pd.length < pd.length + jd.length - 1 := by omega
  simp only [hlt, if_true]
  have hdrop : (pd ++ jd).drop pd.length = jd := List.drop_left pd jd
  rw [hdrop]
  have : pd.length + jd.length - 1 - pd.length + 1 = jd.length := by omega
  rw [this, List.take_length]

/-- Catalog keys all have a description. -/
theorem rule_mapping_isSome_of_mem {k : String} (h : k ∈ catalogKeys) :
    (rule_mapping k).isSome = true := by
  simp [catalogKeys] at h
  rcases h with rfl | rfl | rfl | rfl | rfl <;> decide

/-- Checklist construction succeeds when every key is in the catalog. -/
theorem active_rules_lines_ok {rules : List String}
    (h : ∀ k ∈ rules, k ∈ catalogKeys) :
    ∃ l, active_rules_lines rules = .ok l := by
  induction rules with
  | nil => exact ⟨[], rfl⟩
  | cons k ks ih =>
    obtain ⟨d, hd⟩ := Option.isSome_iff_exists.mp
      (rule_mapping_isSome_of_mem (h k (by simp)))
    obtain ⟨rest, hrest⟩ := ih (fun x hx => h x (by simp [hx]))
    exact ⟨("- " ++ d) :: rest, by simp [active_rules_lines, hd, hrest, Except.map]⟩

/-- `active_rules_text` succeeds when every key is in the catalog. -/
theorem active_rules_text_ok {rules : List String}
    (h : ∀ k ∈ rules, k ∈ catalogKeys) :
    ∃ art, active_rules_text rules = .ok art := by
  obtain ⟨l, hl⟩ := active_rules_lines_ok h
  exact ⟨joinWithNl l, by simp [active_rules_text, hl, Except.map]⟩

/-- Claim C2: on a service response consisting of brace-free leading prose
followed by a valid top-level JSON object, `evaluate_text_with_llm` returns
exactly the brace-matched JSON substring, discarding the prose. -/
theorem evaluate_extracts_span (text : String) (rules : List String)
    (p j : String) (kvs : List (String × JValue))
    (hrules : ∀ k ∈ rules, k ∈ catalogKeys)
    (hp : '\x7b' ∉ p.data)
    (hjson : pyJsonLoads j = some (.jobj kvs))
    (hhead : j.data.head? = some '\x7b')
    (hlast : j.data.getLast? = some '\x7d') :
    evaluate_text_with_llm text rules (fun _ _ => .ok (p ++ j)) = .ok j := by
  obtain ⟨art, hart⟩ := active_rules_text_ok hrules
  simp [evaluate_text_with_llm, hart,
    extractJsonSpan_after_prose p j hp hhead hlast]

/-- Witness for C2 at a concrete prose-wrapped response. -/
theorem evaluate_extracts_span_witness :
    evaluate_text_with_llm "t" ["ambiguity"]
      (fun _ _ => .ok ("Sure, here is the JSON:\n" ++ "\x7b\"evaluations\": []\x7d")) =
      .ok "\x7b\"evaluations\": []\x7d" :=
  evaluate_extracts_span "t" ["ambiguity"] "Sure, here is the JSON:\n"
    "\x7b\"evaluations\": []\x7d" [("evaluations", .jarr [])]
    (by decide) (by decide) rfl rfl rfl

/-- Claim C3 (code bug): on a service response with no brace pair the
function wraps `json.dumps(content)` in an extra pair of quotes, so the
synthesized error string is not valid JSON — its own decode fails, so the
aggregator can never see its `error` key. -/
theorem evaluate_no_brace_error_not_json :
    evaluate_text_with_llm "x" ["typos"] (fun _ _ => .ok "hello") =
      .ok "\x7b\"error\": \"LLM response did not contain a valid JSON object.\", \"raw_response\": \"\"hello\"\"\x7d" ∧
    pyJsonLoads "\x7b\"error\": \"LLM response did not contain a valid JSON object.\", \"raw_response\": \"\"hello\"\"\x7d" = none :=
  ⟨rfl, rfl⟩

/-- Counterexample to C4 as stated: a rule key outside the catalog raises
`KeyError` before the `try` block, so `evaluate_text_with_llm` raises to its
caller even though the service behaves normally. -/
theorem evaluate_raises_on_unknown_rule :
    evaluate_text_with_llm "t" ["bogus"] (fun _ _ => .ok "\x7b\x7d") =
      .error "KeyError: bogus" := rfl

/-- Claim C4 (amended): for every unit text and every rules list drawn from
the catalog, `evaluate_text_with_llm` never raises — whatever the service
does it returns a string — and a service exception is caught and converted
into the synthesized error object carrying the exception message. -/
theorem evaluate_never_raises (text : String) (rules : List String)
    (hrules : ∀ k ∈ rules, k ∈ catalogKeys) :
    (∀ service, (evaluate_text_with_llm text rules service).isOk = true) ∧
    (∀ e, evaluate_text_with_llm text rules (fun _ _ => .error e) =
      .ok ("\x7b\"error\": \"An error occurred: " ++ e ++ "\"\x7d")) := by
  obtain ⟨art, hart⟩ := active_rules_text_ok hrules
  constructor
  · intro service
    simp [evaluate_text_with_llm, hart, Except.isOk, Except.toBool]
  · intro e
    simp [evaluate_text_with_llm, hart]

/-- Witness for C4 at a concrete failing service. -/
theorem evaluate_never_raises_witness :
    evaluate_text_with_llm "t" ["typos"] (fun _ _ => .error "boom") =
      .ok ("\x7b\"error\": \"An error occurred: boom\"\x7d") :=
  (evaluate_never_raises "t" ["typos"] (by decide)).2 "boom"

/-- The description lookup misses exactly outside the catalog. -/
theorem rule_mapping_eq_none_iff (k : String) :
    rule_mapping k = none ↔ k ∉ catalogKeys := by
  unfold rule_mapping catalogKeys
  split_ifs with h1 h2 h3 h4 h5 <;> simp_all

/-- Checklist construction on a list with a non-catalog key raises
`KeyError` naming an offending key. -/
theorem active_rules_lines_err (rules : List String)
    (hex : ∃ k ∈ rules, k ∉ catalogKeys) :
    ∃ bad, bad ∈ rules ∧ bad ∉ catalogKeys ∧
      active_rules_lines rules = .error ("KeyError: " ++ bad) := by
  induction rules with
  | nil => simp at hex
  | cons k ks ih =>
    by_cases hk : k ∈ catalogKeys
    · have hex' : ∃ k2 ∈ ks, k2 ∉ catalogKeys := by
        rcases hex with ⟨k2, hk2, hnot⟩
        rcases List.mem_cons.mp hk2 with rfl | hmem
        · exact absurd hk hnot
        · exact ⟨k2, hmem, hnot⟩
      obtain ⟨bad, hm, hn, herr⟩ := ih hex'
      obtain ⟨d, hd⟩ := Option.isSome_iff_exists.mp
        (rule_mapping_isSome_of_mem hk)
      exact ⟨bad, by simp [hm], hn,
        by simp [active_rules_lines, hd, herr, Except.map]⟩
    · have hnone : rule_mapping k = none := (rule_mapping_eq_none_iff k).mpr hk
      exact ⟨k, by simp, hk, by simp [active_rules_lines, hnone]⟩

/-- Claim C10: a rules list drawn from the five catalog keys always makes
the description lookup succeed; a list containing any other key makes prompt
construction raise `KeyError` before any service call — the result is the
same error for every service behaviour. -/
theorem rule_lookup_total_on_catalog :
    (∀ rules : List String, (∀ k ∈ rules, k ∈ catalogKeys) →
      ∃ art, active_rules_text rules = .ok art) ∧
    (∀ (rules : List String) (text : String),
      (∃ k ∈ rules, k ∉ catalogKeys) →
      ∃ bad, bad ∈ rules ∧ bad ∉ catalogKeys ∧
        ∀ service, evaluate_text_with_llm text rules service =
          .error ("KeyError: " ++ bad)) := by
  constructor
  · intro rules h
    exact active_rules_text_ok h
  · intro rules text hex
    obtain ⟨bad, hm, hn, herr⟩ := active_rules_lines_err rules hex
    refine ⟨bad, hm, hn, fun service => ?_⟩
    simp [evaluate_text_with_llm, active_rules_text, herr, Except.map]

/-- Witness for C10 at concrete rule lists. -/
theorem rule_lookup_total_on_catalog_witness :
    (∃ art, active_rules_text ["typos", "ambiguity"] = .ok art) ∧
    (∃ bad, bad ∈ ["typos", "nonsense"] ∧ bad ∉ catalogKeys ∧
      ∀ service, evaluate_text_with_llm "t" ["typos", "nonsense"] service =
        .error ("KeyError: " ++ bad)) :=
  ⟨rule_lookup_total_on_catalog.1 ["typos", "ambiguity"] (by decide),
   rule_lookup_total_on_catalog.2 ["typos", "nonsense"] "t"
     ⟨"nonsense", by decide, by decide⟩⟩

/-- Claim C9: with the button pressed and a file uploaded, an empty rule
selection surfaces the validation error and evaluation is never entered; a
non-empty selection proceeds to evaluation with the checked keys. -/
theorem main_requires_rule_selection (c m a t d : Bool) :
    (((sidebarRules c m a t d).filter (fun r => r.2)).map (fun r => r.1) = [] →
      mainDecision true true c m a t d = .rulesError) ∧
    (((sidebarRules c m a t d).filter (fun r => r.2)).map (fun r => r.1) ≠ [] →
      mainDecision true true c m a t d =
        .runEvaluation
          (((sidebarRules c m a t d).filter (fun r => r.2)).map (fun r => r.1))) := by
  constructor <;> intro h <;> simp [mainDecision, h]

/-- Witness for C9 at concrete checkbox states. -/
theorem main_requires_rule_selection_witness :
    mainDecision true true false false false false false = .rulesError ∧
    mainDecision true true true false false false false =
      .runEvaluation ["conciseness"] :=
  ⟨(main_requires_rule_selection false false false false false).1 rfl,
   (main_requires_rule_selection true false false false false).2 (by decide)⟩

/-- The labels after `addLine`: unchanged when the label exists, appended
otherwise. -/
theorem addLine_labels (chs : List Chapter) (lab line : String) :
    (addLine chs lab line).map Chapter.label =
      if chs.any (fun c => c.label == lab) then chs.map Chapter.label
      else chs.map Chapter.label ++ [lab] := by
  unfold addLine
  split_ifs with h
  · rw [List.map_map]
    apply List.map_congr_left
    intro c _
    by_cases hc : c.label = lab
    · simp [hc]
    · simp [hc]
  · simp

/-- `addLine` preserves distinctness of labels. -/
theorem addLine_nodup (chs : List Chapter) (lab line : String)
    (hnd : (chs.map Chapter.label).Nodup) :
    ((addLine chs lab line).map Chapter.label).Nodup := by
  rw [addLine_labels]
  split_ifs with h
  · exact hnd
  · have hnot : lab ∉ chs.map Chapter.label := by
      intro hm
      obtain ⟨c, hc, hcl⟩ := List.mem_map.mp hm
      have hany : chs.any (fun c => c.label == lab) = true :=
        List.any_eq_true.mpr ⟨c, hc, by simp [hcl]⟩
      exact h hany
    rw [List.nodup_append]
    refine ⟨hnd, List.nodup_singleton _, ?_⟩
    intro a ha hb
    simp only [List.mem_singleton] at hb
    subst hb
    exact hnot ha

/-- After `addLine` the used label is present. -/
theorem mem_labels_addLine (chs : List Chapter) (lab line : String) :
    lab ∈ (addLine chs lab line).map Chapter.label := by
  rw [addLine_labels]
  split_ifs with h
  · obtain ⟨c, hc, hcl⟩ := List.any_eq_true.mp h
    exact List.mem_map.mpr ⟨c, hc, by simpa using hcl⟩
  · simp

/-- `addLine` never removes a label. -/
theorem mem_labels_addLine_of_mem (chs : List Chapter) (lab line L : String)
    (h : L ∈ chs.map Chapter.label) :
    L ∈ (addLine chs lab line).map Chapter.label := by
  rw [addLine_labels]
  split_ifs with hp
  · exact h
  · simp [h]
/-- No chapter carries an absent label. -/
theorem filter_label_eq_nil (chs : List Chapter) (L : String)
    (h : L ∉ chs.map Chapter.label) :
    chs.filter (fun c => c.label == L) = [] := by
  rw [List.filter_eq_nil_iff]
  intro c hc
  simp only [beq_iff_eq]
  intro he
  exact h (List.mem_map.mpr ⟨c, hc, he⟩)

/-- With distinct labels, filtering by a member chapter label finds exactly
that chapter. -/
theorem filter_label_eq_singleton (chs : List Chapter) (c : Chapter)
    (hnd : (chs.map Chapter.label).Nodup) (hc : c ∈ chs) :
    chs.filter (fun d => d.label == c.label) = [c] := by
  induction chs with
  | nil => simp at hc
  | cons d rest ih =>
    simp only [List.map_cons, List.nodup_cons] at hnd
    rcases List.mem_cons.mp hc with h1 | hmem
    · subst h1
      have hrest : rest.filter (fun e => e.label == c.label) = [] :=
        filter_label_eq_nil rest c.label hnd.1
      simp [List.filter_cons, hrest]
    · have hne : ¬ d.label = c.label := by
        intro he
        exact hnd.1 (he ▸ List.mem_map.mpr ⟨c, hmem, rfl⟩)
      have hrec := ih hnd.2 hmem
      simp [List.filter_cons, hne, hrec]

/-- With distinct labels, `chContent` of a member chapter label is its
content. -/
theorem chContent_of_mem (chs : List Chapter) (c : Chapter)
    (hnd : (chs.map Chapter.label).Nodup) (hc : c ∈ chs) :
    chContent chs c.label = c.content := by
  unfold chContent
  rw [filter_label_eq_singleton chs c hnd hc]
  simp

/-- `addLine` appends the line to the content of its label and leaves every
other label content unchanged. -/
theorem addLine_content (chs : List Chapter) (lab line L : String)
    (hnd : (chs.map Chapter.label).Nodup) :
    chContent (addLine chs lab line) L =
      if lab == L then chContent chs L ++ [line] else chContent chs L := by
  unfold addLine
  by_cases hp : (chs.any fun c => c.label == lab) = true
  · rw [if_pos hp]
    obtain ⟨c, hcm, hcl⟩ := List.any_eq_true.mp hp
    have hcl2 : c.label = lab := by simpa using hcl
    unfold chContent
    rw [List.filter_map]
    have hfl : List.filter ((fun d => d.label == L) ∘ (fun d =>
        if d.label == lab then Chapter.mk d.label (d.content ++ [line]) else d))
          chs =
        List.filter (fun d => d.label == L) chs := by
      apply List.filter_congr
      intro d _
      by_cases hd : d.label = lab <;> simp [Function.comp, hd]
    rw [hfl]
    by_cases hL : lab = L
    · subst hL
      rw [if_pos (by simp)]
      rw [← hcl2, filter_label_eq_singleton chs c hnd hcm]
      simp [hcl2]
    · rw [if_neg (by simpa using hL)]
      congr 1
      rw [List.map_map]
      apply List.map_congr_left
      intro d hd
      have hdl : d.label = L := by simpa using (List.mem_filter.mp hd).2
      have hne : ¬ d.label = lab := by
        rw [hdl]
        exact fun he => hL he.symm
      simp [Function.comp, hne]
  · rw [if_neg hp]
    unfold chContent
    rw [List.filter_append]
    by_cases hL : lab = L
    · subst hL
      rw [if_pos (by simp)]
      simp
    · rw [if_neg (by simpa using hL)]
      have h1 : List.filter (fun c => c.label == L) [Chapter.mk lab [line]] =
          [] := by simp [hL]
      rw [h1]
      simp

/-- The segmentation loop preserves distinctness of labels. -/
theorem segmentAux_nodup (lines : List String) : ∀ (chs : List Chapter)
    (lab : String), (chs.map Chapter.label).Nodup →
    ((segmentAux chs lab lines).map Chapter.label).Nodup := by
  induction lines with
  | nil => intro chs lab h; exact h
  | cons line rest ih =>
    intro chs lab h
    simp only [segmentAux]
    exact ih _ _ (addLine_nodup _ _ _ h)

/-- The segmentation loop never removes a label. -/
theorem segmentAux_labels_mono (lines : List String) : ∀ (chs : List Chapter)
    (lab L : String), L ∈ chs.map Chapter.label →
    L ∈ (segmentAux chs lab lines).map Chapter.label := by
  induction lines with
  | nil => intro chs lab L h; exact h
  | cons line rest ih =>
    intro chs lab L h
    simp only [segmentAux]
    exact ih _ _ _ (mem_labels_addLine_of_mem _ _ _ _ h)

/-- Every label active at some line ends up among the chapter labels. -/
theorem segmentAux_trace_labels (lines : List String) : ∀ (chs : List Chapter)
    (lab : String), ∀ p ∈ labelTrace lab lines,
    p.2 ∈ (segmentAux chs lab lines).map Chapter.label := by
  induction lines with
  | nil => intro chs lab p hp; simp [labelTrace] at hp
  | cons line rest ih =>
    intro chs lab p hp
    simp only [labelTrace, List.mem_cons] at hp
    simp only [segmentAux]
    rcases hp with rfl | hmem
    · exact segmentAux_labels_mono rest _ _ _ (mem_labels_addLine _ _ _)
    · exact ih _ _ p hmem

/-- Loop invariant: the content accumulated under each label is exactly the
lines whose active label it was, in order. -/
theorem segmentAux_content (lines : List String) : ∀ (chs : List Chapter)
    (lab L : String), (chs.map Chapter.label).Nodup →
    chContent (segmentAux chs lab lines) L =
      chContent chs L ++
        ((labelTrace lab lines).filter (fun p => p.2 == L)).map (fun p => p.1) := by
  induction lines with
  | nil => intro chs lab L h; simp [segmentAux, labelTrace]
  | cons line rest ih =>
    intro chs lab L h
    simp only [segmentAux, labelTrace]
    rw [ih (addLine chs ((parseHeading line).getD lab) line)
      ((parseHeading line).getD lab) L (addLine_nodup _ _ _ h)]
    rw [addLine_content chs _ line L h]
    by_cases hL : ((parseHeading line).getD lab) == L
    · simp [List.filter_cons, hL, List.append_assoc]
    · simp only [Bool.not_eq_true] at hL
      simp [List.filter_cons, hL]

/-- Claim C8 (spec-modelled): `segment` accepts any text and returns
chapters with pairwise-distinct labels, among them the "unclassified"
sentinel; every line is filed under the label active when it was read, its
label is among the chapters, and each chapter content is exactly the ordered
lines carrying its label — so every input line appears in exactly one
chapter content. -/
theorem segment_partition (text : String) :
    ((segmentDoc text).map Chapter.label).Nodup ∧
    "unclassified" ∈ (segmentDoc text).map Chapter.label ∧
    (∀ p ∈ labelTrace "unclassified" (docLines text),
      p.2 ∈ (segmentDoc text).map Chapter.label) ∧
    (∀ c ∈ segmentDoc text,
      c.content = ((labelTrace "unclassified" (docLines text)).filter
        (fun p => p.2 == c.label)).map (fun p => p.1)) := by
  have hnd0 : (([⟨"unclassified", []⟩] : List Chapter).map Chapter.label).Nodup := by
    simp
  have hnd : ((segmentDoc text).map Chapter.label).Nodup :=
    segmentAux_nodup (docLines text) _ _ hnd0
  refine ⟨hnd, ?_, ?_, ?_⟩
  · exact segmentAux_labels_mono (docLines text) _ _ _ (by simp)
  · exact fun p hp => segmentAux_trace_labels (docLines text) _ _ p hp
  · intro c hc
    have h1 := chContent_of_mem _ c hnd hc
    have h2 := segmentAux_content (docLines text) [⟨"unclassified", []⟩]
      "unclassified" c.label hnd0
    have h3 : chContent [⟨"unclassified", []⟩] c.label = [] := by
      unfold chContent
      by_cases hcl : "unclassified" == c.label <;>
        simp [List.filter_cons, hcl]
    rw [← h1]
    show chContent (segmentDoc text) c.label = _
    unfold segmentDoc
    rw [h2, h3]
    simp

/-- Witness for C8 at a concrete two-line document. -/
theorem segment_partition_witness :
    ((segmentDoc "1 Intro\nalpha").map Chapter.label).Nodup ∧
    (⟨"1 Intro", ["1 Intro", "alpha"]⟩ : Chapter).content =
      ((labelTrace "unclassified" (docLines "1 Intro\nalpha")).filter
        (fun p => p.2 == "1 Intro")).map (fun p => p.1) :=
  ⟨(segment_partition "1 Intro\nalpha").1,
   (segment_partition "1 Intro\nalpha").2.2.2
     ⟨"1 Intro", ["1 Intro", "alpha"]⟩
     (List.mem_cons_of_mem _ (List.mem_cons_self _ _))⟩

/-- The executable substring test agrees with `List.IsInfix`. -/
theorem containsSub_eq_true_iff (n h : List Char) :
    containsSub n h = true ↔ n <:+: h := by
  induction h with
  | nil =>
    simp [containsSub, List.infix_nil, List.isEmpty_iff]
  | cons c t ih =>
    simp [containsSub, List.infix_cons_iff, ih, List.isPrefixOf_iff_prefix]

/-- An infix of an append is an infix of a part or straddles the junction. -/
theorem infix_append_cases {d x y : List Char} (h : d <:+: x ++ y) :
    d <:+: x ∨ d <:+: y ∨
      ∃ d₁ d₂, d = d₁ ++ d₂ ∧ d₁ ≠ [] ∧ d₂ ≠ [] ∧ d₁ <:+ x ∧ d₂ <+: y := by
  obtain ⟨s, t, hst⟩ := h
  have hst2 : s ++ (d ++ t) = x ++ y := by
    rw [← hst]; simp [List.append_assoc]
  rcases List.append_eq_append_iff.mp hst2 with ⟨e, hx, hdt⟩ | ⟨e, hs, hy⟩
  · rcases List.append_eq_append_iff.mp hdt with ⟨b, he, _⟩ | ⟨b, hd, hy2⟩
    · left
      exact ⟨s, b, by rw [hx, he, List.append_assoc]⟩
    · cases hb : b with
      | nil =>
        left
        subst hb
        simp only [List.append_nil] at hd
        exact ⟨s, [], by rw [hx, hd]; simp⟩
      | cons c cs =>
        cases he2 : e with
        | nil =>
          right; left
          subst he2
          simp only [List.nil_append] at hd hdt
          exact ⟨[], t, by rw [hy2, hd]; simp⟩
        | cons f fs =>
          right; right
          refine ⟨e, b, by rw [hd], by rw [he2]; simp, by rw [hb]; simp,
            ⟨s, by rw [hx]⟩, ⟨t, by rw [hy2]⟩⟩
  · right; left
    exact ⟨e, t, by rw [hy, List.append_assoc]⟩

/-- A nonempty suffix of a newline-terminated list puts a newline into the
straddling word. -/
theorem nl_mem_of_suffix {d₁ d x : List Char} (hsub : d₁ <:+ x) (hne : d₁ ≠ [])
    (hsplit : ∃ d₂, d = d₁ ++ d₂) (hx : x.getLast? = some '\n') : '\n' ∈ d := by
  obtain ⟨p, hp⟩ := hsub
  obtain ⟨d₂, hd⟩ := hsplit
  have h1 : d₁.getLast? = some '\n' := by
    rw [← hp, List.getLast?_append_of_ne_nil p hne] at hx
    exact hx
  have h2 : '\n' ∈ d₁ := by
    have hm : '\n' ∈ d₁.getLast? := by rw [h1]; rfl
    obtain ⟨hnil, he⟩ := List.mem_getLast?_eq_getLast hm
    rw [he]
    exact List.getLast_mem hnil
  rw [hd]
  exact List.mem_append_left _ h2

/-- A nonempty prefix of a newline-led list puts a newline into the
straddling word. -/
theorem nl_mem_prefix_case {d₂ d y : List Char} (hsub : d₂ <+: y) (hne : d₂ ≠ [])
    (hsplit : ∃ d₁, d = d₁ ++ d₂) (hy : y.head? = some '\n') : '\n' ∈ d := by
  obtain ⟨p, hp⟩ := hsub
  obtain ⟨d₁, hd⟩ := hsplit
  have h1 : d₂.head? = some '\n' := by
    rw [← hp, List.head?_append_of_ne_nil d₂ hne] at hy
    exact hy
  have h2 : '\n' ∈ d₂ := by
    cases d₂ with
    | nil => exact absurd rfl hne
    | cons a t =>
      have : a = '\n' := by simpa using h1
      simp [this]
  rw [hd]
  exact List.mem_append_right _ h2

/-- A newline-free infix of an append whose left part ends in a newline lies
in one of the parts. -/
theorem infix_append_left_nl {d x y : List Char} (h : d <:+: x ++ y)
    (hd : '\n' ∉ d) (hx : x.getLast? = some '\n') : d <:+: x ∨ d <:+: y := by
  rcases infix_append_cases h with h1 | h1 | ⟨d₁, d₂, hsp, hne1, _, hsf, _⟩
  · exact Or.inl h1
  · exact Or.inr h1
  · exact absurd (nl_mem_of_suffix hsf hne1 ⟨d₂, hsp⟩ hx) hd

/-- A newline-free infix of an append whose right part starts with a newline
lies in one of the parts. -/
theorem infix_append_right_nl {d x y : List Char} (h : d <:+: x ++ y)
    (hd : '\n' ∉ d) (hy : y.head? = some '\n') : d <:+: x ∨ d <:+: y := by
  rcases infix_append_cases h with h1 | h1 | ⟨d₁, d₂, hsp, _, hne2, _, hpf⟩
  · exact Or.inl h1
  · exact Or.inr h1
  · exact absurd (nl_mem_prefix_case hpf hne2 ⟨d₁, hsp⟩ hy) hd

/-- A nonempty infix of the newline singleton contains the newline. -/
theorem infix_singleton_nl {d : List Char} (h : d <:+: ['\n'])
    (hne : d ≠ []) : '\n' ∈ d := by
  rcases List.infix_cons_iff.mp h with h1 | h1
  · rcases List.prefix_cons_iff.mp h1 with rfl | ⟨t2, hd2, _⟩
    · exact absurd rfl hne
    · simp [hd2]
  · exact absurd (List.infix_nil.mp h1) hne

/-- Unfolding of the joined checklist on two or more lines. -/
theorem data_joinWithNl_cons (x y : String) (ys : List String) :
    (joinWithNl (x :: y :: ys)).data =
      x.data ++ '\n' :: (joinWithNl (y :: ys)).data := by
  show (x ++ "\n" ++ joinWithNl (y :: ys)).data = _
  rw [String.data_append, String.data_append]
  rw [List.append_assoc]
  rfl

/-- A nonempty newline-free infix of a newline-join lies inside one line. -/
theorem infix_joinWithNl {d : List Char} {ls : List String}
    (hne : d ≠ []) (hnl : '\n' ∉ d)
    (h : d <:+: (joinWithNl ls).data) : ∃ l ∈ ls, d <:+: l.data := by
  induction ls with
  | nil => exact absurd (List.infix_nil.mp h) hne
  | cons x xs ih =>
    cases xs with
    | nil => exact ⟨x, by simp, h⟩
    | cons y ys =>
      rw [data_joinWithNl_cons] at h
      rcases infix_append_right_nl h hnl rfl with h1 | h1
      · exact ⟨x, by simp, h1⟩
      · have h2 : d <:+: ['\n'] ++ (joinWithNl (y :: ys)).data := h1
        rcases infix_append_left_nl h2 hnl rfl with h3 | h3
        · exact absurd (infix_singleton_nl h3 hne) hnl
        · obtain ⟨l, hl, hinf⟩ := ih h3
          exact ⟨l, by simp [hl], hinf⟩

/-- Every joined line is an infix of the join. -/
theorem infix_joinWithNl_of_mem {x : String} {ls : List String} (h : x ∈ ls) :
    x.data <:+: (joinWithNl ls).data := by
  induction ls with
  | nil => simp at h
  | cons z zs ih =>
    cases zs with
    | nil =>
      have hx : x = z := by simpa using h
      subst hx
      exact List.infix_refl _
    | cons y ys =>
      rcases List.mem_cons.mp h with rfl | hmem
      · rw [data_joinWithNl_cons]
        exact (List.prefix_append _ _).isInfix
      · obtain ⟨s, t, hs⟩ := ih hmem
        rw [data_joinWithNl_cons]
        exact ⟨z.data ++ '\n' :: s, t, by rw [← hs]; simp⟩

/-- The checklist lines are exactly the dashed descriptions of the selected
keys. -/
theorem active_rules_lines_mem {rules lines : List String}
    (h : active_rules_lines rules = .ok lines) :
    (∀ a ∈ rules, ∀ da, rule_mapping a = some da → ("- " ++ da) ∈ lines) ∧
    (∀ l ∈ lines, ∃ a ∈ rules, ∃ da, rule_mapping a = some da ∧
      l = "- " ++ da) := by
  induction rules generalizing lines with
  | nil =>
    simp only [active_rules_lines, Except.ok.injEq] at h
    subst h
    exact ⟨by simp, by simp⟩
  | cons k ks ih =>
    cases hk : rule_mapping k with
    | none => simp [active_rules_lines, hk] at h
    | some d =>
      cases hks : active_rules_lines ks with
      | error e => simp [active_rules_lines, hk, hks, Except.map] at h
      | ok rest =>
        simp only [active_rules_lines, hk, hks, Except.map,
          Except.ok.injEq] at h
        subst h
        obtain ⟨ih1, ih2⟩ := ih hks
        constructor
        · intro a ha da hda
          rcases List.mem_cons.mp ha with rfl | hmem
          · rw [hk] at hda
            have hd : d = da := by injection hda
            subst hd
            exact List.mem_cons_self _ _
          · exact List.mem_cons_of_mem _ (ih1 a hmem da hda)
        · intro l hl
          rcases List.mem_cons.mp hl with rfl | hmem
          · exact ⟨k, by simp, d, hk, rfl⟩
          · obtain ⟨a, hma, da, hda, hl2⟩ := ih2 l hmem
            exact ⟨a, by simp [hma], da, hda, hl2⟩

set_option maxRecDepth 100000 in
/-- Every catalog description is nonempty and newline-free. -/
theorem catalog_desc_shape :
    ∀ k ∈ catalogKeys,
      ((rule_mapping k).getD "").data ≠ [] ∧
      '\n' ∉ ((rule_mapping k).getD "").data := by decide

set_option maxRecDepth 100000 in
/-- No catalog description occurs in the fixed prompt text around the
checklist and the evaluated text. -/
theorem catalog_desc_not_in_fixed_parts :
    ∀ k ∈ catalogKeys,
      containsSub ((rule_mapping k).getD "").data user_prompt_head.data =
        false ∧
      containsSub ((rule_mapping k).getD "").data user_prompt_middle.data =
        false := by decide

set_option maxRecDepth 100000 in
/-- No catalog description occurs in the dashed checklist line of a
different rule. -/
theorem catalog_desc_pairwise :
    ∀ a ∈ catalogKeys, ∀ k ∈ catalogKeys, ¬ a = k →
      containsSub ((rule_mapping k).getD "").data
        ("- " ++ (rule_mapping a).getD "").data = false := by decide

set_option maxRecDepth 100000 in
/-- Claim C7 (amended): for every unit text and non-empty selection drawn
from the catalog, the user prompt embeds the description of every active
rule; and it embeds no inactive rule description, provided the unit text
itself does not contain that description. -/
theorem prompt_embeds_exactly_active_rules (text : String)
    (selected : List String) (art : String)
    (hsel : ∀ a ∈ selected, a ∈ catalogKeys)
    (hart : active_rules_text selected = .ok art) :
    (∀ a ∈ selected, ∀ da, rule_mapping a = some da →
      containsSub da.data (user_prompt text art).data = true) ∧
    (∀ k ∈ catalogKeys, k ∉ selected → ∀ dk, rule_mapping k = some dk →
      containsSub dk.data text.data = false →
      containsSub dk.data (user_prompt text art).data = false) := by
  cases hlines : active_rules_lines selected with
  | error e => simp [active_rules_text, hlines, Except.map] at hart
  | ok lines =>
    have hart2 : art = joinWithNl lines := by
      simp only [active_rules_text, hlines, Except.map, Except.ok.injEq] at hart
      exact hart.symm
    obtain ⟨hmem1, hmem2⟩ := active_rules_lines_mem hlines
    have hnld : ("\n" : String).data = ['\n'] := rfl
    have hdata : (user_prompt text art).data =
        user_prompt_head.data ++ (art.data ++ (user_prompt_middle.data ++
          (text.data ++ ['\n']))) := by
      show (user_prompt_head ++ art ++ user_prompt_middle ++ text ++ "\n").data = _
      rw [String.data_append, String.data_append, String.data_append,
        String.data_append, hnld]
      simp [List.append_assoc]
    constructor
    · intro a ha da hda
      rw [containsSub_eq_true_iff, hdata]
      have h1 : ("- " ++ da) ∈ lines := hmem1 a ha da hda
      have h4 : da.data <:+: ("- " ++ da).data := by
        refine ⟨("- " : String).data, [], ?_⟩
        rw [String.data_append]
        simp
      have h2 : da.data <:+: (joinWithNl lines).data :=
        h4.trans (infix_joinWithNl_of_mem h1)
      rw [hart2]
      obtain ⟨s, t, hs⟩ := h2
      refine ⟨user_prompt_head.data ++ s,
        t ++ (user_prompt_middle.data ++ (text.data ++ ['\n'])), ?_⟩
      rw [← hs]
      simp [List.append_assoc]
    · intro k hk hknot dk hdk htext
      rw [Bool.eq_false_iff]
      intro htrue
      rw [containsSub_eq_true_iff, hdata] at htrue
      have hshape := catalog_desc_shape k hk
      have hfix := catalog_desc_not_in_fixed_parts k hk
      simp only [hdk, Option.getD_some] at hshape hfix
      obtain ⟨hne, hnl⟩ := hshape
      obtain ⟨hpre, hmid⟩ := hfix
      rcases infix_append_left_nl htrue hnl (by decide) with h1 | h1
      · have hb := (containsSub_eq_true_iff _ _).mpr h1
        rw [hpre] at hb
        exact Bool.noConfusion hb
      · have hyhead : (user_prompt_middle.data ++
            (text.data ++ ['\n'])).head? = some '\n' := by
          rw [List.head?_append_of_ne_nil _ (by decide)]
          decide
        rcases infix_append_right_nl h1 hnl hyhead with h2 | h2
        · rw [hart2] at h2
          obtain ⟨l, hl, hinf⟩ := infix_joinWithNl hne hnl h2
          obtain ⟨a, hma, da, hda, hleq⟩ := hmem2 l hl
          subst hleq
          have hak : ¬ a = k := fun he => hknot (he ▸ hma)
          have hpair := catalog_desc_pairwise a (hsel a hma) k hk hak
          simp only [hda, hdk, Option.getD_some] at hpair
          have hb := (containsSub_eq_true_iff _ _).mpr hinf
          rw [hpair] at hb
          exact Bool.noConfusion hb
        · rcases infix_append_left_nl h2 hnl (by decide) with h3 | h3
          · have hb := (containsSub_eq_true_iff _ _).mpr h3
            rw [hmid] at hb
            exact Bool.noConfusion hb
          · rcases infix_append_right_nl h3 hnl rfl with h4 | h4
            · have hb := (containsSub_eq_true_iff _ _).mpr h4
              rw [htext] at hb
              exact Bool.noConfusion hb
            · exact absurd (infix_singleton_nl h4 hne) hnl

set_option maxRecDepth 100000 in
/-- Counterexample to C7 as stated: the unit text is interpolated verbatim
into the prompt, so a unit text equal to an inactive rule description makes
the prompt embed that inactive description. -/
theorem prompt_embeds_inactive_counterexample :
    ("typos" ∉ (["conciseness"] : List String)) ∧
    active_rules_text ["conciseness"] =
      .ok "- 簡潔な文: 受動態、二重否定、部分否定、使役表現が使われていないか。" ∧
    rule_mapping "typos" = some "誤字脱字: 誤字や脱字がないか。" ∧
    containsSub ("誤字脱字: 誤字や脱字がないか。" : String).data
      (user_prompt "誤字脱字: 誤字や脱字がないか。"
        "- 簡潔な文: 受動態、二重否定、部分否定、使役表現が使われていないか。").data =
      true := by
  refine ⟨by decide, rfl, rfl, ?_⟩
  rw [containsSub_eq_true_iff]
  unfold user_prompt
  refine ⟨(user_prompt_head ++
      "- 簡潔な文: 受動態、二重否定、部分否定、使役表現が使われていないか。" ++
      user_prompt_middle).data, ("\n" : String).data, ?_⟩
  rw [String.data_append, String.data_append, String.data_append,
    String.data_append, String.data_append, String.data_append]

set_option maxRecDepth 100000 in
/-- Witness for C7 with the conciseness rule active and typos inactive. -/
theorem prompt_embeds_exactly_active_rules_witness :
    containsSub
      ("簡潔な文: 受動態、二重否定、部分否定、使役表現が使われていないか。" : String).data
      (user_prompt "abc"
        "- 簡潔な文: 受動態、二重否定、部分否定、使役表現が使われていないか。").data =
      true ∧
    containsSub ("誤字脱字: 誤字や脱字がないか。" : String).data
      (user_prompt "abc"
        "- 簡潔な文: 受動態、二重否定、部分否定、使役表現が使われていないか。").data =
      false :=
  ⟨(prompt_embeds_exactly_active_rules "abc" ["conciseness"]
      "- 簡潔な文: 受動態、二重否定、部分否定、使役表現が使われていないか。"
      (by decide) rfl).1 "conciseness" (by decide) _ rfl,
   (prompt_embeds_exactly_active_rules "abc" ["conciseness"]
      "- 簡潔な文: 受動態、二重否定、部分否定、使役表現が使われていないか。"
      (by decide) rfl).2 "typos" (by decide) (by decide) _ rfl (by decide)⟩
